import Mathlib

/-!
# Verification of the eion knowledge-extraction pipeline

A shallow embedding, in Lean 4, of the core extraction pipeline of the
`eiondb/eion` repository (Python sources under `internal/`), together with
theorems settling the specification claims about it.

Modelling conventions:
* Python strings are Lean `String`s; where character-level reasoning is
  needed (sanitization, the rule-based extractor) text is a `List Nat` of
  code points or a `List Char`.
* Backend calls (`generate_response`) are modelled by oracle functions
  passed as parameters: the code under verification treats the backend
  response as opaque data, so an arbitrary function faithfully represents
  every possible sequence of responses.
* Python exceptions are `Except` values whose error carries the exception
  message (`str(e)`).
* Timestamps (`utc_now`) are an opaque `Nat` parameter.
-/

namespace Eion

/-- A chat message as in `knowledge_models.Message`. -/
structure PyMessage where
  role : String
  content : String
deriving DecidableEq, Repr

/-- `knowledge_models.ExtractedEntity`: a transient entity candidate. -/
structure ExtractedEntity where
  name : String
  entity_type_id : Int
  summary : Option String
deriving DecidableEq, Repr

/-- `knowledge_models.ExtractedEdge`: a transient edge candidate, named by
human-readable labels rather than ids. -/
structure ExtractedEdge where
  source_name : String
  target_name : String
  relation_type : String
  summary : Option String
deriving DecidableEq, Repr

/-- `knowledge_models.EntityNode`: a persisted entity. -/
structure EntityNode where
  uuid : String
  name : String
  group_id : String
  labels : List String
  summary : String
  created_at : Nat
deriving DecidableEq, Repr

/-- `knowledge_models.EdgeNode`: a persisted directed typed relation. -/
structure EdgeNode where
  uuid : String
  source_node_uuid : String
  target_node_uuid : String
  relation_type : String
  summary : String
  group_id : String
  created_at : Nat
deriving DecidableEq, Repr

/-! ## Input sanitization (`LLMClient._clean_input`, `NumaClient._clean_input`)

Both clients share the identical body (llm_client.py lines 62-75,
numa_client.py lines 39-52).  Strings are modelled as lists of code points.
-/

/-- The zero-width / invisible characters removed by `_clean_input`:
`'​‌‍﻿⁠'`. -/
def zero_width : List Nat := [0x200B, 0x200C, 0x200D, 0xFEFF, 0x2060]

/-- `input_str.encode('utf-8', errors='ignore').decode('utf-8')`: encoding a
Python `str` with `errors='ignore'` drops exactly the lone surrogates
(U+D800..U+DFFF); every other code point round-trips. -/
def dropInvalidUnicode (s : List Nat) : List Nat :=
  s.filter (fun c => !(0xD800 ≤ c && c ≤ 0xDFFF))

/-- `cleaned.replace(char, '')` for a single-character `char`: removes every
occurrence of that code point. -/
def removeCharAll (s : List Nat) (z : Nat) : List Nat :=
  s.filter (fun c => c ≠ z)

/-- The `for char in zero_width: cleaned = cleaned.replace(char, '')` loop. -/
def removeZeroWidth (s : List Nat) : List Nat :=
  zero_width.foldl removeCharAll s

/-- The predicate of the final comprehension:
`ord(char) >= 32 or char in '\n\r\t'`. -/
def keepCtrl (c : Nat) : Bool :=
  32 ≤ c || c == 10 || c == 13 || c == 9

/-- `LLMClient._clean_input` / `NumaClient._clean_input`. -/
def clean_input (s : List Nat) : List Nat :=
  (removeZeroWidth (dropInvalidUnicode s)).filter keepCtrl

/-! ## Remote backend retry (`llm_client.py` lines 35-96)

A call of `_generate_response` either returns a parsed dict or raises an
exception; `attempt n` below is the outcome of the n-th call (counted
from 1), so an arbitrary function models every possible behaviour of the
network and the model. -/

/-- The exception classes distinguished by `is_server_or_retry_error`:
`RateLimitError`, `json.decoder.JSONDecodeError`, `httpx.HTTPStatusError`
(carrying its response status code), and everything else. -/
inductive PyError where
  | rateLimit (msg : String)
  | jsonDecode (msg : String)
  | httpStatus (code : Nat) (msg : String)
  | otherError (msg : String)
deriving DecidableEq, Repr

/-- `is_server_or_retry_error` (llm_client.py lines 40-47): rate-limit and
JSON-decode errors, and HTTP status errors with `500 <= code < 600`. -/
def is_server_or_retry_error : PyError → Bool
  | .rateLimit _ => true
  | .jsonDecode _ => true
  | .httpStatus code _ => decide (500 ≤ code) && decide (code < 600)
  | .otherError _ => false

/-- The tenacity loop of `_generate_response_with_retry`:
`stop_after_attempt(4)` allows `remaining = 3` further attempts after the
first, `retry_if_exception(is_server_or_retry_error)` retries only
retryable errors (any other exception is raised at once), and
`reraise=True` re-raises the last error once the budget is exhausted.
The body's `except (httpx.HTTPStatusError, RateLimitError) as e: raise e`
re-raises unchanged, so it is the identity on outcomes. -/
def retryGo (attempt : Nat → Except PyError α) : Nat → Nat → Except PyError α
  | attemptNo, 0 => attempt attemptNo
  | attemptNo, remaining + 1 =>
    match attempt attemptNo with
    | .ok v => .ok v
    | .error e =>
      if is_server_or_retry_error e then retryGo attempt (attemptNo + 1) remaining
      else .error e

/-- `LLMClient._generate_response_with_retry` (llm_client.py lines 77-96). -/
def generate_response_with_retry (attempt : Nat → Except PyError α) : Except PyError α :=
  retryGo attempt 1 3

/-- Concrete attempt sequence for the retry witness: three HTTP 503 failures
followed by a success. -/
def threeFailsThenOk : Nat → Except PyError Nat := fun i =>
  if i ≤ 3 then .error (.httpStatus 503 "Service Unavailable") else .ok 42

/-! ## `ExtractionService.extract_knowledge` (extraction_service.py lines 115-148) -/

/-- `extraction_service.ExtractionResponse`. -/
structure ExtractionResponse where
  success : Bool
  extracted_nodes : List EntityNode
  extracted_edges : List EdgeNode
  error : Option String
deriving DecidableEq, Repr

/-- `ExtractionService.extract_knowledge`.  `llmAvailable` / `numaAvailable`
model `self.llm_client is not None` / `self.numa_client is not None`;
`useNumaReq` models the truthiness of `request.use_numa`; `llmResult` /
`numaResult` are the outcomes of `self._extract_with_llm(request)` /
`self._extract_with_numa(request)`, each either extracted graph data or a
raised exception carrying its message `str(e)`.  The whole body runs inside
`try ... except Exception`, whose handler builds the failure response, so the
function is total.  An LLM-path exception is caught by the inner
`except Exception` (line 130), logged, and control falls through to the Numa
fallback block. -/
def extract_knowledge (llmAvailable numaAvailable useNumaReq : Bool)
    (llmResult numaResult : Except String (List EntityNode × List EdgeNode)) :
    ExtractionResponse :=
  -- use_numa = request.use_numa or self.llm_client is None
  let useNuma := useNumaReq || !llmAvailable
  let llmOutcome : Option ExtractionResponse :=
    if !useNuma && llmAvailable then
      match llmResult with
      | .ok (ns, es) => some ⟨true, ns, es, none⟩
      | .error _ => none        -- "LLM extraction failed, falling back to Numa"
    else none
  match llmOutcome with
  | some r => r
  | none =>
    if numaAvailable then
      match numaResult with
      | .ok (ns, es) => ⟨true, ns, es, none⟩
      | .error e => ⟨false, [], [], some e⟩  -- outer `except Exception` handler
    else ⟨false, [], [], some "No extraction clients available"⟩

/-- Concrete entity node used in counterexamples and witnesses. -/
def cexNode : EntityNode :=
  ⟨"group-1-0", "John Doe", "group-1", ["Entity"], "", 0⟩

/-! ## Edge extraction (`NumaExtractor.extract_edges`, numa_extractor.py
lines 184-238, and `InHouseKnowledgeExtractor.extract_edges`,
knowledge_service.py lines 228-271)

The backend's edge response is a parameter (`response`); the second
component of each top-level function counts `generate_response` calls, of
which the source issues exactly one, after the early return for fewer than
two nodes. -/

/-- The Python dict comprehensions
`{node.name: node.uuid for node in nodes}` / `{node.name: node for node in
nodes}` followed by lookup: on duplicate names the later node wins. -/
def dictLookup (nodes : List EntityNode) (name : String) : Option EntityNode :=
  nodes.reverse.find? (fun n => n.name == name)

/-- `node_name_to_uuid.get(name)` in `NumaExtractor.extract_edges`. -/
def nameToUuid (nodes : List EntityNode) (name : String) : Option String :=
  (dictLookup nodes name).map (·.uuid)

/-- One iteration of the conversion loop in `NumaExtractor.extract_edges`
(lines 220-234): resolve both endpoint names and keep the edge only when
`source_uuid and target_uuid and source_uuid != target_uuid` — `None` and
the empty string are falsy.  The edge uuid is
`f"{episode.group_id}-edge-{len(edge_nodes)}"`. -/
def numaEdgeStep (nodes : List EntityNode) (groupId : String) (now : Nat)
    (acc : List EdgeNode) (e : ExtractedEdge) : List EdgeNode :=
  match nameToUuid nodes e.source_name, nameToUuid nodes e.target_name with
  | some su, some tu =>
    if su ≠ "" ∧ tu ≠ "" ∧ su ≠ tu then
      acc ++ [⟨groupId ++ "-edge-" ++ toString acc.length, su, tu,
              e.relation_type, e.summary.getD "", groupId, now⟩]
    else acc
  | _, _ => acc

/-- The `for extracted_edge in extracted_edges` loop of
`NumaExtractor.extract_edges`. -/
def numaConvertEdges (nodes : List EntityNode) (groupId : String) (now : Nat)
    (extracted : List ExtractedEdge) : List EdgeNode :=
  extracted.foldl (numaEdgeStep nodes groupId now) []

/-- `NumaExtractor.extract_edges`: `([], 0 calls)` when fewer than 2 nodes,
otherwise one backend call whose response is converted. -/
def numa_extract_edges (response : List ExtractedEdge) (nodes : List EntityNode)
    (groupId : String) (now : Nat) : List EdgeNode × Nat :=
  if nodes.length < 2 then ([], 0)
  else (numaConvertEdges nodes groupId now response, 1)

/-- One iteration of the conversion loop in
`InHouseKnowledgeExtractor.extract_edges` (lines 254-268): keep the edge
when both names are keys of `node_map`; there is *no* check that the
resolved uuids differ.  Edge uuids come from `uuid.uuid4()`, modelled by a
supply indexed by the number of edges built so far. -/
def inhouseEdgeStep (nodes : List EntityNode) (groupId : String) (now : Nat)
    (uuidGen : Nat → String) (acc : List EdgeNode) (e : ExtractedEdge) : List EdgeNode :=
  match dictLookup nodes e.source_name, dictLookup nodes e.target_name with
  | some sn, some tn =>
      acc ++ [⟨uuidGen acc.length, sn.uuid, tn.uuid, e.relation_type,
              e.summary.getD "", groupId, now⟩]
  | _, _ => acc

/-- The `for edge_data in extracted_edges` loop of
`InHouseKnowledgeExtractor.extract_edges`. -/
def inhouseConvertEdges (nodes : List EntityNode) (groupId : String) (now : Nat)
    (uuidGen : Nat → String) (extracted : List ExtractedEdge) : List EdgeNode :=
  extracted.foldl (inhouseEdgeStep nodes groupId now uuidGen) []

/-- `InHouseKnowledgeExtractor.extract_edges`: `([], 0 calls)` when fewer
than 2 nodes, otherwise one backend call whose response is converted. -/
def inhouse_extract_edges (response : List ExtractedEdge) (nodes : List EntityNode)
    (groupId : String) (now : Nat) (uuidGen : Nat → String) : List EdgeNode × Nat :=
  if nodes.length < 2 then ([], 0)
  else (inhouseConvertEdges nodes groupId now uuidGen response, 1)

/-- Concrete nodes and a self-referential edge candidate for the C2
counterexample. -/
def cexNodeJohn : EntityNode := ⟨"u1", "John", "g", ["Entity"], "", 0⟩

def cexNodeMary : EntityNode := ⟨"u2", "Mary", "g", ["Entity"], "", 0⟩

def cexSelfEdge : ExtractedEdge := ⟨"John", "John", "manages", none⟩

/-! ## The reflexion loop (`NumaExtractor.extract_nodes`, numa_extractor.py
lines 39-158)

The extract oracle `eO` maps the prompt messages to the backend's
`extracted_entities`; the reflexion oracle `rO` maps the names extracted so
far (the only varying part of the reflexion context of
`_extract_nodes_reflexion`) to the backend's `missed_entities`. -/

/-- The values of `episode.source` dispatched on in the loop body
(`knowledge_models.EpisodeType`). -/
inductive EpisodeSource where
  | message
  | text
  | json
  | conversation
deriving DecidableEq, Repr

/-- The `context` dict built at lines 85-92, *before* the loop.  Its
`custom_prompt` entry snapshots the initial value of the `custom_prompt`
variable; the loop later rebinds the local variable (line 126) but never
writes the dict entry back, so the prompts keep reading the snapshot.
The `episode_timestamp` and `source_description` entries are not used by
any of the three prompt templates and are omitted. -/
structure ExtractContext where
  episode_content : String
  previous_episodes : List String
  custom_prompt : String
  entity_types : String
  source : EpisodeSource
deriving DecidableEq, Repr

/-- System message of `_create_extract_message_prompt` (lines 245-256). -/
def extractMessageSystem : String :=
  "You are an AI assistant that extracts entity nodes from conversational messages.\n\nYour task is to extract entity nodes mentioned **explicitly or implicitly** in the CURRENT MESSAGE.\n\n**EXCLUDE** entities mentioned only in the PREVIOUS MESSAGES (they are for context only).\n\nGuidelines:\n1. Extract all entities, concepts, or actors mentioned in the current message\n2. Include people, places, organizations, objects, concepts, events, and any other significant entities\n3. Use the provided entity types to classify each entity\n4. Provide a brief summary for each entity if additional context is available\n5. Only extract entities that are actually mentioned or referenced in the current message"

/-- User content of `_create_extract_message_prompt` (lines 258-273). -/
def extractMessageUserContent (ctx : ExtractContext) : String :=
  "\n<PREVIOUS MESSAGES>\n" ++ String.intercalate "\n" ctx.previous_episodes ++
  "\n</PREVIOUS MESSAGES>\n\n<CURRENT MESSAGE>\n" ++ ctx.episode_content ++
  "\n</CURRENT MESSAGE>\n\n<ENTITY TYPES>\n" ++ ctx.entity_types ++
  "\n</ENTITY TYPES>\n\n" ++ ctx.custom_prompt ++
  "\n\nExtract entities mentioned in the CURRENT MESSAGE only."

/-- System message of `_create_extract_text_prompt` (lines 282-291). -/
def extractTextSystem : String :=
  "You are an AI assistant that extracts entity nodes from text.\n\nYour task is to extract all significant entities, concepts, or actors mentioned in the TEXT.\n\nGuidelines:\n1. Extract all significant entities, concepts, or actors mentioned in the text\n2. Include people, places, organizations, objects, concepts, events, and any other significant entities\n3. Use the provided entity types to classify each entity\n4. Provide a brief summary for each entity if additional context is available\n5. Be thorough but precise in your extraction"

/-- User content of `_create_extract_text_prompt` (lines 293-304). -/
def extractTextUserContent (ctx : ExtractContext) : String :=
  "\n<TEXT>\n" ++ ctx.episode_content ++
  "\n</TEXT>\n\n<ENTITY TYPES>\n" ++ ctx.entity_types ++
  "\n</ENTITY TYPES>\n\n" ++ ctx.custom_prompt ++
  "\n\nExtract all significant entities from the text."

/-- System message of `_create_extract_json_prompt` (lines 313-322). -/
def extractJsonSystem : String :=
  "You are an AI assistant that extracts entity nodes from JSON data.\n\nYour task is to extract all significant entities, concepts, or actors mentioned in the JSON.\n\nGuidelines:\n1. Extract entities from both keys and values in the JSON\n2. Include people, places, organizations, objects, concepts, events, and any other significant entities\n3. Use the provided entity types to classify each entity\n4. Provide a brief summary for each entity if additional context is available\n5. Parse the JSON structure to understand the data context"

/-- User content of `_create_extract_json_prompt` (lines 324-335). -/
def extractJsonUserContent (ctx : ExtractContext) : String :=
  "\n<JSON>\n" ++ ctx.episode_content ++
  "\n</JSON>\n\n<ENTITY TYPES>\n" ++ ctx.entity_types ++
  "\n</ENTITY TYPES>\n\n" ++ ctx.custom_prompt ++
  "\n\nExtract all significant entities from the JSON data."

/-- Maximum reflexion iterations, numa_extractor.py line 25. -/
def MAX_REFLEXION_ITERATIONS : Nat := 3

/-- Lines 126-128: rebuild `custom_prompt` from the missed entities. -/
def reflexionFoldPrompt (missing : List String) : String :=
  missing.foldl (fun acc e => acc ++ "\n" ++ e ++ ",")
    "Make sure that the following entities are extracted: "

/-- The mutable locals of `extract_nodes` that change across loop passes,
plus the history of prompts sent to the backend (`extract_prompts`) and the
number of reflexion calls, recorded for the statements. -/
structure NodesLoopState where
  llm_response : List ExtractedEntity
  custom_prompt : String
  entities_missed : Bool
  reflexion_iterations : Nat
  extract_prompts : List (List PyMessage)
  reflect_calls : Nat
deriving DecidableEq, Repr

/-- One pass of the `while` body (lines 94-128): dispatch on
`episode.source` to build the prompt **from the `context` dict** (whose
`custom_prompt` is the pre-loop snapshot), call the backend, increment
`reflexion_iterations`, and — only while `reflexion_iterations <
MAX_REFLEXION_ITERATIONS` — run the reflexion call and rebind the local
`custom_prompt`.  On an unknown source no backend call happens and
`llm_response` keeps its previous value. -/
def extractNodesStep (eO : List PyMessage → List ExtractedEntity)
    (rO : List String → List String) (ctx : ExtractContext)
    (st : NodesLoopState) : NodesLoopState :=
  let callResult : List ExtractedEntity × List (List PyMessage) :=
    match ctx.source with
    | .message =>
      let p := [⟨"system", extractMessageSystem⟩, ⟨"user", extractMessageUserContent ctx⟩]
      (eO p, st.extract_prompts ++ [p])
    | .text =>
      let p := [⟨"system", extractTextSystem⟩, ⟨"user", extractTextUserContent ctx⟩]
      (eO p, st.extract_prompts ++ [p])
    | .json =>
      let p := [⟨"system", extractJsonSystem⟩, ⟨"user", extractJsonUserContent ctx⟩]
      (eO p, st.extract_prompts ++ [p])
    | .conversation => (st.llm_response, st.extract_prompts)
  let resp := callResult.1
  let prompts := callResult.2
  let r := st.reflexion_iterations + 1
  if r < MAX_REFLEXION_ITERATIONS then
    let missing := rO (resp.map (·.name))
    { llm_response := resp
      custom_prompt := reflexionFoldPrompt missing
      entities_missed := missing.length != 0
      reflexion_iterations := r
      extract_prompts := prompts
      reflect_calls := st.reflect_calls + 1 }
  else
    { st with llm_response := resp, reflexion_iterations := r, extract_prompts := prompts }

/-- The `while entities_missed and reflexion_iterations <=
MAX_REFLEXION_ITERATIONS` loop (line 94).  Since each pass increments
`reflexion_iterations` by one, the guard fails after at most
`MAX_REFLEXION_ITERATIONS + 2` passes from iteration 0, so running the loop
on that much fuel computes its exact fixpoint
(`extractNodesLoop_fuel_stable` below). -/
def extractNodesLoop (eO : List PyMessage → List ExtractedEntity)
    (rO : List String → List String) (ctx : ExtractContext) :
    Nat → NodesLoopState → NodesLoopState
  | 0, st => st
  | fuel + 1, st =>
    if st.entities_missed ∧ st.reflexion_iterations ≤ MAX_REFLEXION_ITERATIONS then
      extractNodesLoop eO rO ctx fuel (extractNodesStep eO rO ctx st)
    else st

/-- Initial locals (lines 49-52): `llm_response = {}`, `custom_prompt = ''`,
`entities_missed = True`, `reflexion_iterations = 0`. -/
def initNodesState : NodesLoopState := ⟨[], "", true, 0, [], 0⟩

/-- Line 85-92: the `context` dict, with `custom_prompt` snapshotting `''`. -/
def mkExtractContext (content : String) (previous : List String)
    (entityTypes : String) (source : EpisodeSource) : ExtractContext :=
  ⟨content, previous, "", entityTypes, source⟩

/-- The reflexion loop of `NumaExtractor.extract_nodes`, run to completion. -/
def extract_nodes_loop (eO : List PyMessage → List ExtractedEntity)
    (rO : List String → List String) (content : String) (previous : List String)
    (entityTypes : String) (source : EpisodeSource) : NodesLoopState :=
  extractNodesLoop eO rO (mkExtractContext content previous entityTypes source)
    (MAX_REFLEXION_ITERATIONS + 2) initNodesState

/-! ## Fallback embedding (`RealEmbeddingService._generate_mock_embeddings`,
embedding_service.py lines 70-81) -/

/-- `self.dimension` for `all-MiniLM-L6-v2` (line 31). -/
def EMBEDDING_DIMENSION : Nat := 384

/-- `hash_val = hash(text) % (2**31)`.  `pyHash` is Python's built-in `hash`
for `str`, which is siphash *salted per interpreter process*
(`PYTHONHASHSEED`): it is a parameter fixed for one run, not one global
function shared by independent runs. -/
def mockSeed (pyHash : String → Int) (text : String) : Nat :=
  (pyHash text % (2 ^ 31 : Int)).toNat

/-- `np.random.seed(hash_val); embedding = np.random.randn(self.dimension)`
then `embedding / np.linalg.norm(embedding)`: `randn` models numpy's seeded
standard-normal draw (deterministic in the seed for a fixed numpy), and the
float arithmetic is idealized over `ℝ`. -/
noncomputable def mockEmbedding (pyHash : String → Int) (randn : Nat → List ℝ)
    (text : String) : List ℝ :=
  let v := randn (mockSeed pyHash text)
  let n := Real.sqrt ((v.map (fun x => x ^ 2)).sum)
  v.map (fun x => x / n)

/-- Two per-process hash salts: `hashRunA`/`hashRunB` stand for `hash` in
two independent interpreter runs that happen to disagree on the text. -/
def hashRunA : String → Int := fun _ => 0

def hashRunB : String → Int := fun _ => 1

/-- A deterministic stand-in for the seeded numpy draw: seed 0 yields the
first standard basis vector of dimension 384, any other seed the second. -/
noncomputable def randnModel (seed : Nat) : List ℝ :=
  if seed = 0 then 1 :: 0 :: List.replicate 382 0
  else 0 :: 1 :: List.replicate 382 0

/-! ## Local rule-based extractor
(`LocalExtractor._extract_from_prompt`, numa_module.py lines 255-308, and
`InHouseLLMClient._extract_entities`, knowledge_service.py lines 72-106)

Text is a `List Nat` of code points.  The regex classes `[A-Z]`, `[a-z]`,
`\s` and the word characters of `\b` are modelled over their ASCII meaning,
as are `str.lower`, `str.strip` and `str.title`. -/

/-- `[A-Z]`. -/
def isUpperAZ (c : Nat) : Bool := 65 ≤ c && c ≤ 90

/-- `[a-z]`. -/
def isLowerAZ (c : Nat) : Bool := 97 ≤ c && c ≤ 122

/-- `\s` (ASCII part): space, tab, newline, vertical tab, form feed,
carriage return. -/
def isSpaceRe (c : Nat) : Bool :=
  c == 32 || c == 9 || c == 10 || c == 11 || c == 12 || c == 13

/-- `[0-9]`. -/
def isDigit09 (c : Nat) : Bool := 48 ≤ c && c ≤ 57

/-- A word character for `\b` (ASCII part): letters, digits, underscore. -/
def isWordChar (c : Nat) : Bool := isUpperAZ c || isLowerAZ c || isDigit09 c || c == 95

/-- `str.lower()` on one code point (ASCII part). -/
def pyLower (c : Nat) : Nat := if isUpperAZ c then c + 32 else c

/-- `str.upper()` on one code point (ASCII part). -/
def pyUpper (c : Nat) : Nat := if isLowerAZ c then c - 32 else c

/-- An ASCII letter (a cased character in the ASCII range). -/
def isAlphaAscii (c : Nat) : Bool := isUpperAZ c || isLowerAZ c

/-- Code points of a Lean string literal. -/
def strCodes (s : String) : List Nat := s.data.map Char.toNat

/-- Greedy parse of the `(?:\s+[A-Z][a-z]+)*` part of the proper-noun
pattern: returns the list of parsed `\s+[A-Z][a-z]+` groups and the
remaining input. -/
def matchSegs (cs : List Nat) : List (List Nat) × List Nat :=
  if cs.takeWhile isSpaceRe = [] then ([], cs)
  else
    match hr : cs.dropWhile isSpaceRe with
    | [] => ([], cs)
    | u :: r2 =>
      if isUpperAZ u then
        if r2.takeWhile isLowerAZ = [] then ([], cs)
        else
          let res := matchSegs (r2.dropWhile isLowerAZ)
          ((cs.takeWhile isSpaceRe ++ u :: r2.takeWhile isLowerAZ) :: res.1, res.2)
      else ([], cs)
termination_by cs.length
decreasing_by
  have h1 : (cs.takeWhile isSpaceRe).length + (cs.dropWhile isSpaceRe).length = cs.length := by
    rw [← List.length_append, List.takeWhile_append_dropWhile]
  have h2 : (r2.takeWhile isLowerAZ).length + (r2.dropWhile isLowerAZ).length = r2.length := by
    rw [← List.length_append, List.takeWhile_append_dropWhile]
  have h4 : (cs.dropWhile isSpaceRe).length = r2.length + 1 := by rw [hr]; rfl
  omega

/-- The trailing `\b`: holds at the end of the input or before a non-word
character. -/
def boundaryOK : List Nat → Bool
  | [] => true
  | c :: _ => !isWordChar c

/-- The backtracking fallback when the trailing `\b` fails: drop the last
`\s+[A-Z][a-z]+` group whole (shortening its `[a-z]+` or `\s+` can never
restore a boundary), after which the boundary falls before that group's
whitespace and holds; with no group to drop the match fails. -/
def dropLastSeg (u : Nat) (ls : List Nat) :
    List (List Nat) → List Nat → Option (List Nat × List Nat)
  | [], _ => none
  | s :: ss, rest =>
    some (u :: ls ++ (s :: ss).dropLast.flatten,
          (s :: ss).getLast (List.cons_ne_nil s ss) ++ rest)

/-- Attempt to match `[A-Z][a-z]+(?:\s+[A-Z][a-z]+)*\b` at the head of the
input (the leading `\b` is the caller's concern).  Returns the matched
characters and the remaining input. -/
def matchProperAt : List Nat → Option (List Nat × List Nat)
  | [] => none
  | u :: r =>
    if isUpperAZ u then
      if r.takeWhile isLowerAZ = [] then none
      else
        let ls := r.takeWhile isLowerAZ
        let sr := matchSegs (r.dropWhile isLowerAZ)
        if boundaryOK sr.2 then
          some (u :: ls ++ sr.1.flatten, sr.2)
        else dropLastSeg u ls sr.1 sr.2
    else none

/-- `re.findall(r'\b[A-Z][a-z]+(?:\s+[A-Z][a-z]+)*\b', input_text)`:
left-to-right scan; a match may start where an `[A-Z]` character is
preceded by a non-word character (or the start); matches do not overlap.
`prevWord` tracks whether the previous character was a word character.
The fuel only serves structural recursion; `findProperGo_fuel_stable`
shows it is never exhausted from `findProper`'s initial value. -/
def findProperGo : Nat → Bool → List Nat → List (List Nat)
  | 0, _, _ => []
  | _ + 1, _, [] => []
  | fuel + 1, prevWord, c :: rest =>
    if !prevWord && isUpperAZ c then
      match matchProperAt (c :: rest) with
      | some (m, rem) => m :: findProperGo fuel true rem
      | none => findProperGo fuel (isWordChar c) rest
    else findProperGo fuel (isWordChar c) rest

/-- The full `re.findall` scan over the input text. -/
def findProper (cs : List Nat) : List (List Nat) :=
  findProperGo (cs.length + 1) false cs

/-- The stopword set of `_extract_from_prompt` (numa_module.py lines
271-273). -/
def numaStopwords : List (List Nat) :=
  ["Extract", "Focus", "People", "Important", "Relationships", "Return",
   "The", "This", "That", "These", "Those", "He", "She", "It", "They",
   "Entity", "Entities", "Task", "Following", "Text", "Content"].map strCodes

/-- `list(dict.fromkeys(entities))`: order-preserving dedup keeping the
first occurrence. -/
def firstDedupGo (seen : List (List Nat)) : List (List Nat) → List (List Nat)
  | [] => []
  | x :: xs =>
    if x ∈ seen then firstDedupGo seen xs
    else x :: firstDedupGo (x :: seen) xs

/-- `list(dict.fromkeys(entities))`. -/
def firstDedup (l : List (List Nat)) : List (List Nat) := firstDedupGo [] l

/-- The entity half of `LocalExtractor._extract_from_prompt` (lines
266-277 and 300-304): proper-noun regex scan, stopword filter with
`len(noun) > 1`, `dict.fromkeys` dedup, cap at 10. -/
def extract_from_prompt_entities (input_text : List Nat) : List (List Nat) :=
  let proper_nouns := findProper input_text
  let entities := proper_nouns.filter
    (fun noun => decide (noun ∉ numaStopwords) && decide (1 < noun.length))
  (firstDedup entities).take 10

/-- `str.strip()` (ASCII whitespace part). -/
def pyStrip (s : List Nat) : List Nat :=
  ((s.dropWhile isSpaceRe).reverse.dropWhile isSpaceRe).reverse

/-- `re.sub(r'\s+', ' ', s)`: collapse every whitespace run to one space. -/
def collapseWs : List Nat → List Nat
  | [] => []
  | c :: rest =>
    if isSpaceRe c then 32 :: collapseWs (rest.dropWhile isSpaceRe)
    else c :: collapseWs rest
termination_by s => s.length
decreasing_by
  all_goals
    have hdw : ∀ (l : List Nat), (l.dropWhile isSpaceRe).length ≤ l.length := by
      intro l
      have h : (l.takeWhile isSpaceRe).length + (l.dropWhile isSpaceRe).length = l.length := by
        rw [← List.length_append, List.takeWhile_append_dropWhile]
      omega
    simp only [List.length_cons]
    first
      | exact Nat.lt_succ_of_le (hdw _)
      | omega

/-- `str.title()` (ASCII part): a letter after a non-letter is uppercased,
a letter after a letter is lowercased, other characters pass through. -/
def pyTitleGo : Bool → List Nat → List Nat
  | _, [] => []
  | prevAlpha, c :: rest =>
    (if isAlphaAscii c then (if prevAlpha then pyLower c else pyUpper c) else c)
      :: pyTitleGo (isAlphaAscii c) rest

/-- `str.title()`. -/
def pyTitle (s : List Nat) : List Nat := pyTitleGo false s

/-- One entity dict appended by `InHouseLLMClient._extract_entities`. -/
structure InhouseEntity where
  name : List Nat
  entity_type_id : Int
  summary : List Nat
deriving DecidableEq, Repr

/-- The match-processing loop of `InHouseLLMClient._extract_entities`
(lines 78-100).  `raw` is the stream of raw match texts produced by the
`re.finditer` runs over all patterns (an oracle: the loop treats them as
opaque strings); `seen` is `seen_entities`, the set of lowered names.
`classify`/`summarize` model `_classify_entity`/`_generate_entity_summary`
applied to the fixed input text. -/
def inhouseEntitiesGo (classify : List Nat → Int) (summarize : List Nat → List Nat) :
    List (List Nat) → List (List Nat) → List InhouseEntity
  | _, [] => []
  | seen, raw :: rest =>
    let name := pyTitle (collapseWs (pyStrip raw))
    if 2 < name.length ∧ name.map pyLower ∉ seen then
      ⟨name, classify name, summarize name⟩ ::
        inhouseEntitiesGo classify summarize (name.map pyLower :: seen) rest
    else inhouseEntitiesGo classify summarize seen rest

/-- `InHouseLLMClient._extract_entities`: the processed entity list, capped
at 20 (`entities[:20]`, line 103). -/
def inhouse_extract_entities (raw : List (List Nat)) (classify : List Nat → Int)
    (summarize : List Nat → List Nat) : List InhouseEntity :=
  (inhouseEntitiesGo classify summarize [] raw).take 20

/-- `[A-Z][a-z]+` as a shape predicate on matched characters. -/
def WordOK (w : List Nat) : Prop :=
  ∃ (u : Nat) (ls : List Nat),
    w = u :: ls ∧ isUpperAZ u = true ∧ ls ≠ [] ∧ ∀ c ∈ ls, isLowerAZ c = true

/-- `\s+[A-Z][a-z]+` as a shape predicate. -/
def SegOK (s : List Nat) : Prop :=
  ∃ (ws w : List Nat),
    s = ws ++ w ∧ ws ≠ [] ∧ (∀ c ∈ ws, isSpaceRe c = true) ∧ WordOK w

/-- The shape of any text matched by the proper-noun pattern. -/
def ProperShape (m : List Nat) : Prop :=
  ∃ (w : List Nat) (segs : List (List Nat)),
    m = w ++ segs.flatten ∧ WordOK w ∧ ∀ s ∈ segs, SegOK s

lemma mem_foldl_removeCharAll (l : List Nat) :
    ∀ (s : List Nat) (c : Nat), c ∈ l.foldl removeCharAll s → c ∈ s ∧ ∀ z ∈ l, c ≠ z := by
  induction l with
  | nil => intro s c h; exact ⟨h, by simp⟩
  | cons z zs ih =>
    intro s c h
    rcases ih (removeCharAll s z) c h with ⟨hmem, hall⟩
    rcases List.mem_filter.mp hmem with ⟨hs, hne⟩
    refine ⟨hs, ?_⟩
    intro w hw
    rcases List.mem_cons.mp hw with rfl | hw
    · exact of_decide_eq_true hne
    · exact hall w hw

/-- C9: for every input string, the sanitized output contains none of the
zero-width/invisible characters U+200B, U+200C, U+200D, U+FEFF, U+2060, and
no code point below 32 other than newline (10), carriage return (13) and
tab (9). -/
theorem clean_input_strips_invisibles_and_controls (s : List Nat) :
    (clean_input s).all
      (fun c => !(zero_width.contains c) && (32 ≤ c || c == 10 || c == 13 || c == 9)) = true := by
  rw [List.all_eq_true]
  intro c hc
  rcases List.mem_filter.mp hc with ⟨hmem, hkeep⟩
  have hzw := (mem_foldl_removeCharAll zero_width _ c hmem).2
  have hcnot : c ∉ zero_width := fun hcm => hzw c hcm rfl
  have h1 : zero_width.contains c = false := by
    simpa using hcnot
  simp only [h1, Bool.not_false, Bool.true_and]
  exact hkeep

lemma retryGo_congr {α : Type} (remaining : Nat) :
    ∀ (attemptNo : Nat) (a b : Nat → Except PyError α),
      (∀ i, attemptNo ≤ i → i ≤ attemptNo + remaining → a i = b i) →
      retryGo a attemptNo remaining = retryGo b attemptNo remaining := by
  induction remaining with
  | zero =>
    intro n a b h
    simp [retryGo, h n le_rfl (by omega)]
  | succ r ih =>
    intro n a b h
    have hn : a n = b n := h n le_rfl (by omega)
    simp only [retryGo, hn]
    cases hbn : b n with
    | ok v => rfl
    | error e =>
      by_cases hr : is_server_or_retry_error e
      · simp only [hr, if_true]
        exact ih (n + 1) a b (fun i h1 h2 => h i (by omega) (by omega))
      · simp [hr]

lemma retryGo_skip {α : Type} (remaining : Nat) :
    ∀ (attemptNo k : Nat) (a : Nat → Except PyError α),
      attemptNo ≤ k → k ≤ attemptNo + remaining →
      (∀ i, attemptNo ≤ i → i < k → ∃ e, a i = .error e ∧ is_server_or_retry_error e = true) →
      retryGo a attemptNo remaining = retryGo a k (attemptNo + remaining - k) := by
  induction remaining with
  | zero =>
    intro n k a h1 h2 _
    have hk : k = n := by omega
    subst hk
    simp
  | succ r ih =>
    intro n k a h1 h2 hpre
    rcases Nat.eq_or_lt_of_le h1 with rfl | hlt
    · have h : n + (r + 1) - n = r + 1 := by omega
      rw [h]
    · rcases hpre n le_rfl hlt with ⟨e, he, hre⟩
      have hstep : retryGo a n (r + 1) = retryGo a (n + 1) r := by
        simp [retryGo, he, hre]
      rw [hstep, ih (n + 1) k a (by omega) (by omega)
        (fun i hi1 hi2 => hpre i (by omega) hi2)]
      congr 1
      omega

lemma retryGo_ok {α : Type} (a : Nat → Except PyError α) (n r : Nat) (v : α)
    (h : a n = .ok v) : retryGo a n r = .ok v := by
  cases r <;> simp [retryGo, h]

lemma retryGo_stopNow {α : Type} (a : Nat → Except PyError α) (n r : Nat) (e : PyError)
    (h : a n = .error e) (hre : is_server_or_retry_error e = false) :
    retryGo a n r = .error e := by
  cases r <;> simp [retryGo, h, hre]

/-- C4: the retried generate call makes at most 4 attempts total (the outcome
depends only on attempts 1..4); a non-retryable error — anything other than a
rate-limit signal, a JSON-decode error, or an HTTP 5xx — propagates
immediately; a success within the 4-attempt budget, preceded only by
retryable errors, is returned; and when all 4 attempts fail with retryable
errors, the last error is surfaced rather than a successful empty result. -/
theorem retry_policy {α : Type} :
    (∀ (a b : Nat → Except PyError α), (∀ i, 1 ≤ i → i ≤ 4 → a i = b i) →
        generate_response_with_retry a = generate_response_with_retry b) ∧
    (∀ (a : Nat → Except PyError α) (k : Nat) (e : PyError), 1 ≤ k → k ≤ 4 →
        (∀ i, 1 ≤ i → i < k → ∃ e', a i = .error e' ∧ is_server_or_retry_error e' = true) →
        a k = .error e → is_server_or_retry_error e = false →
        generate_response_with_retry a = .error e) ∧
    (∀ (a : Nat → Except PyError α) (k : Nat) (v : α), 1 ≤ k → k ≤ 4 →
        (∀ i, 1 ≤ i → i < k → ∃ e', a i = .error e' ∧ is_server_or_retry_error e' = true) →
        a k = .ok v → generate_response_with_retry a = .ok v) ∧
    (∀ (a : Nat → Except PyError α),
        (∀ i, 1 ≤ i → i ≤ 4 → ∃ e', a i = .error e' ∧ is_server_or_retry_error e' = true) →
        ∃ e, a 4 = .error e ∧ generate_response_with_retry a = .error e) := by
  refine ⟨?_, ?_, ?_, ?_⟩
  · intro a b h
    exact retryGo_congr 3 1 a b (fun i h1 h2 => h i h1 (by omega))
  · intro a k e h1 h2 hpre hk hre
    have hskip := retryGo_skip 3 1 k a h1 (by omega) hpre
    rw [generate_response_with_retry, hskip]
    exact retryGo_stopNow a k _ e hk hre
  · intro a k v h1 h2 hpre hk
    have hskip := retryGo_skip 3 1 k a h1 (by omega) hpre
    rw [generate_response_with_retry, hskip]
    exact retryGo_ok a k _ v hk
  · intro a h
    rcases h 4 (by omega) le_rfl with ⟨e, he, hre⟩
    refine ⟨e, he, ?_⟩
    have hskip := retryGo_skip 3 1 4 a (by omega) (by omega)
      (fun i hi1 hi2 => h i hi1 (by omega))
    rw [generate_response_with_retry, hskip]
    simpa [retryGo] using he

/-- Witness for C4: three simulated 503 responses followed by a success on
the 4th attempt return the successful result. -/
theorem retry_policy_witness :
    generate_response_with_retry threeFailsThenOk = .ok 42 :=
  (retry_policy (α := Nat)).2.2.1 threeFailsThenOk 4 42 (by decide) (by decide)
    (fun i h1 h2 =>
      ⟨.httpStatus 503 "Service Unavailable",
        by simp only [threeFailsThenOk, if_pos (by omega : i ≤ 3)], rfl⟩)
    rfl

/-- Counterexample for C5: with a remote client configured (`use_numa`
falsy), a remote extraction failure is *not* propagated as an extraction
error — the local (Numa) backend is substituted mid-flight and its result is
returned as a success with no error field. -/
theorem extract_knowledge_no_propagation_cex :
    extract_knowledge true true false (.error "LLM failed after retries")
        (.ok ([cexNode], [])) =
      ⟨true, [cexNode], [], none⟩ := rfl

/-- C5 (amended): when the remote-backend extraction fails,
`extract_knowledge` automatically falls back to the local (Numa) backend
when one is available, returning the local result; the failure surfaces as
an unsuccessful `ExtractionResponse` only when no local client exists (or
the local extraction also fails). -/
theorem extract_knowledge_fallback (e : String)
    (numaResult : Except String (List EntityNode × List EdgeNode)) :
    (∀ ns es, numaResult = .ok (ns, es) →
        extract_knowledge true true false (.error e) numaResult = ⟨true, ns, es, none⟩) ∧
    (∀ e2, numaResult = .error e2 →
        extract_knowledge true true false (.error e) numaResult = ⟨false, [], [], some e2⟩) ∧
    extract_knowledge true false false (.error e) numaResult =
      ⟨false, [], [], some "No extraction clients available"⟩ := by
  refine ⟨?_, ?_, ?_⟩
  · rintro ns es rfl
    rfl
  · rintro e2 rfl
    rfl
  · rfl

/-- Witness for C5. -/
theorem extract_knowledge_fallback_witness :
    extract_knowledge true true false (.error "boom") (.ok ([cexNode], [])) =
      ⟨true, [cexNode], [], none⟩ :=
  (extract_knowledge_fallback "boom" (.ok ([cexNode], []))).1 [cexNode] [] rfl

/-- Counterexample for C10: when the active extraction path fails with an
exception whose message is empty, the failure response carries
`error = some ""` — an *empty* error string, refuting the claim that a
failed response always has a non-empty error string. -/
theorem extract_knowledge_empty_error_cex :
    (extract_knowledge false true false (.error "x") (.error "")).success = false ∧
    (extract_knowledge false true false (.error "x") (.error "")).error = some "" :=
  ⟨rfl, rfl⟩

/-- C10 (amended): `extract_knowledge` always returns an
`ExtractionResponse` (every exception is caught by the outer handler); a
failed response has empty node and edge lists and a *set* (non-`none`)
error field carrying the failure message, and a successful response has no
error field. -/
theorem extract_knowledge_total_response (la na un : Bool)
    (lr nr : Except String (List EntityNode × List EdgeNode)) :
    ((extract_knowledge la na un lr nr).success = false →
      (extract_knowledge la na un lr nr).extracted_nodes = [] ∧
      (extract_knowledge la na un lr nr).extracted_edges = [] ∧
      (extract_knowledge la na un lr nr).error ≠ none) ∧
    ((extract_knowledge la na un lr nr).success = true →
      (extract_knowledge la na un lr nr).error = none) := by
  rcases lr with le | ⟨lns, les⟩ <;> rcases nr with ne | ⟨nns, nes⟩ <;>
    cases la <;> cases na <;> cases un <;> simp [extract_knowledge]

/-- Witness for C10: a run with no clients available yields the
well-formed failure response. -/
theorem extract_knowledge_total_response_witness :
    (extract_knowledge false false false (.error "x") (.error "y")).extracted_nodes = [] ∧
    (extract_knowledge false false false (.error "x") (.error "y")).error ≠ none :=
  ⟨((extract_knowledge_total_response false false false (.error "x") (.error "y")).1 rfl).1,
   ((extract_knowledge_total_response false false false (.error "x") (.error "y")).1 rfl).2.2⟩

lemma foldl_preserve {α β : Type} (f : List α → β → List α) (P : α → Prop)
    (hf : ∀ acc b, (∀ e ∈ acc, P e) → ∀ e ∈ f acc b, P e) :
    ∀ (l : List β) (acc : List α), (∀ e ∈ acc, P e) → ∀ e ∈ l.foldl f acc, P e := by
  intro l
  induction l with
  | nil => intro acc h; exact h
  | cons b bs ih => intro acc h; exact ih (f acc b) (hf acc b h)

lemma dictLookup_some {nodes : List EntityNode} {name : String} {n : EntityNode}
    (h : dictLookup nodes name = some n) : n ∈ nodes :=
  List.mem_reverse.mp (List.mem_of_find?_eq_some h)

lemma nameToUuid_some {nodes : List EntityNode} {name u : String}
    (h : nameToUuid nodes name = some u) : ∃ n ∈ nodes, n.uuid = u := by
  rcases Option.map_eq_some'.mp h with ⟨n, hfind, huuid⟩
  exact ⟨n, dictLookup_some hfind, huuid⟩

lemma numaEdgeStep_preserve (nodes : List EntityNode) (groupId : String) (now : Nat)
    (acc : List EdgeNode) (e : ExtractedEdge)
    (h : ∀ x ∈ acc,
      (∃ n ∈ nodes, n.uuid = x.source_node_uuid) ∧
      (∃ n ∈ nodes, n.uuid = x.target_node_uuid) ∧
      x.source_node_uuid ≠ x.target_node_uuid) :
    ∀ x ∈ numaEdgeStep nodes groupId now acc e,
      (∃ n ∈ nodes, n.uuid = x.source_node_uuid) ∧
      (∃ n ∈ nodes, n.uuid = x.target_node_uuid) ∧
      x.source_node_uuid ≠ x.target_node_uuid := by
  intro x hx
  rcases hs : nameToUuid nodes e.source_name with _ | su
  · rw [numaEdgeStep, hs] at hx
    exact h x hx
  rcases ht : nameToUuid nodes e.target_name with _ | tu
  · rw [numaEdgeStep, hs, ht] at hx
    exact h x hx
  simp only [numaEdgeStep, hs, ht] at hx
  by_cases hg : su ≠ "" ∧ tu ≠ "" ∧ su ≠ tu
  · rw [if_pos hg] at hx
    rcases List.mem_append.mp hx with hx | hx
    · exact h x hx
    · rcases List.mem_singleton.mp hx with rfl
      exact ⟨nameToUuid_some hs, nameToUuid_some ht, hg.2.2⟩
  · rw [if_neg hg] at hx
    exact h x hx

lemma numaEdgeStep_drop {nodes : List EntityNode} {groupId : String} {now : Nat}
    {acc : List EdgeNode} {e : ExtractedEdge}
    (h : nameToUuid nodes e.source_name = none ∨ nameToUuid nodes e.target_name = none ∨
         nameToUuid nodes e.source_name = nameToUuid nodes e.target_name) :
    numaEdgeStep nodes groupId now acc e = acc := by
  rcases hs : nameToUuid nodes e.source_name with _ | su
  · rw [numaEdgeStep, hs]
  rcases ht : nameToUuid nodes e.target_name with _ | tu
  · rw [numaEdgeStep, hs, ht]
  rcases h with h | h | h
  · rw [hs] at h; cases h
  · rw [ht] at h; cases h
  · rw [hs, ht] at h
    have heq : su = tu := Option.some_injective _ h
    simp only [numaEdgeStep, hs, ht]
    rw [if_neg]
    intro hg
    exact hg.2.2 heq

lemma inhouseEdgeStep_preserve (nodes : List EntityNode) (groupId : String) (now : Nat)
    (uuidGen : Nat → String) (acc : List EdgeNode) (e : ExtractedEdge)
    (h : ∀ x ∈ acc,
      (∃ n ∈ nodes, n.uuid = x.source_node_uuid) ∧
      (∃ n ∈ nodes, n.uuid = x.target_node_uuid)) :
    ∀ x ∈ inhouseEdgeStep nodes groupId now uuidGen acc e,
      (∃ n ∈ nodes, n.uuid = x.source_node_uuid) ∧
      (∃ n ∈ nodes, n.uuid = x.target_node_uuid) := by
  intro x hx
  rcases hs : dictLookup nodes e.source_name with _ | sn
  · rw [inhouseEdgeStep, hs] at hx
    exact h x hx
  rcases ht : dictLookup nodes e.target_name with _ | tn
  · rw [inhouseEdgeStep, hs, ht] at hx
    exact h x hx
  rw [inhouseEdgeStep, hs, ht] at hx
  rcases List.mem_append.mp hx with hx | hx
  · exact h x hx
  · rcases List.mem_singleton.mp hx with rfl
    exact ⟨⟨sn, dictLookup_some hs, rfl⟩, ⟨tn, dictLookup_some ht, rfl⟩⟩

lemma inhouseEdgeStep_drop {nodes : List EntityNode} {groupId : String} {now : Nat}
    {uuidGen : Nat → String} {acc : List EdgeNode} {e : ExtractedEdge}
    (h : nameToUuid nodes e.source_name = none ∨ nameToUuid nodes e.target_name = none) :
    inhouseEdgeStep nodes groupId now uuidGen acc e = acc := by
  rcases h with h | h
  · have hs : dictLookup nodes e.source_name = none := Option.map_eq_none'.mp h
    rw [inhouseEdgeStep, hs]
  · have ht : dictLookup nodes e.target_name = none := Option.map_eq_none'.mp h
    rcases hs : dictLookup nodes e.source_name with _ | sn
    · rw [inhouseEdgeStep, hs]
    · rw [inhouseEdgeStep, hs, ht]

/-- Counterexample for C2: `InHouseKnowledgeExtractor.extract_edges` does
not drop an edge whose resolved source id equals its target id — a
self-referential extracted edge (`John` → `John`) is converted into an
`EdgeNode` whose source and target uuids coincide. -/
theorem inhouse_self_edge_cex :
    ((inhouse_extract_edges [cexSelfEdge] [cexNodeJohn, cexNodeMary] "g" 0
        (fun n => "edge-" ++ toString n)).1.map
      (fun e => (e.source_node_uuid, e.target_node_uuid))) = [("u1", "u1")] := rfl

/-- C2 (amended): in `NumaExtractor.extract_edges` every produced edge has
source and target uuids resolved from the entity nodes of the same pass and
the two uuids differ, and an extracted edge whose source or target name
fails to resolve, or whose resolved source id equals its target id, is
dropped without an error; in `InHouseKnowledgeExtractor.extract_edges` the
endpoints are likewise resolved from the same pass's nodes and unresolved
names are dropped silently, but an edge whose resolved source id equals its
target id is *not* dropped. -/
theorem extract_edges_resolution (nodes : List EntityNode) (groupId : String) (now : Nat)
    (uuidGen : Nat → String) (extracted pre post : List ExtractedEdge) (ee : ExtractedEdge) :
    (∀ e ∈ numaConvertEdges nodes groupId now extracted,
        (∃ n ∈ nodes, n.uuid = e.source_node_uuid) ∧
        (∃ n ∈ nodes, n.uuid = e.target_node_uuid) ∧
        e.source_node_uuid ≠ e.target_node_uuid) ∧
    ((nameToUuid nodes ee.source_name = none ∨ nameToUuid nodes ee.target_name = none ∨
        nameToUuid nodes ee.source_name = nameToUuid nodes ee.target_name) →
      numaConvertEdges nodes groupId now (pre ++ ee :: post) =
        numaConvertEdges nodes groupId now (pre ++ post)) ∧
    (∀ e ∈ inhouseConvertEdges nodes groupId now uuidGen extracted,
        (∃ n ∈ nodes, n.uuid = e.source_node_uuid) ∧
        (∃ n ∈ nodes, n.uuid = e.target_node_uuid)) ∧
    ((nameToUuid nodes ee.source_name = none ∨ nameToUuid nodes ee.target_name = none) →
      inhouseConvertEdges nodes groupId now uuidGen (pre ++ ee :: post) =
        inhouseConvertEdges nodes groupId now uuidGen (pre ++ post)) := by
  refine ⟨?_, ?_, ?_, ?_⟩
  · exact foldl_preserve _ _ (numaEdgeStep_preserve nodes groupId now) extracted []
      (by intro x hx; cases hx)
  · intro h
    unfold numaConvertEdges
    rw [List.foldl_append, List.foldl_append, List.foldl_cons, numaEdgeStep_drop h]
  · exact foldl_preserve _ _ (inhouseEdgeStep_preserve nodes groupId now uuidGen) extracted []
      (by intro x hx; cases hx)
  · intro h
    unfold inhouseConvertEdges
    rw [List.foldl_append, List.foldl_append, List.foldl_cons, inhouseEdgeStep_drop h]

/-- Witness for C2: the self-referential candidate `John` → `John` is
silently dropped by the Numa conversion. -/
theorem extract_edges_resolution_witness :
    numaConvertEdges [cexNodeJohn, cexNodeMary] "g" 0 [cexSelfEdge] = [] := by
  have h := (extract_edges_resolution [cexNodeJohn, cexNodeMary] "g" 0
      (fun _ => "e") [] [] [] cexSelfEdge).2.1
    (Or.inr (Or.inr rfl))
  simpa using h

/-- C6: for every episode whose node extraction yields fewer than 2 entity
nodes, both edge extractors return the empty list and issue no backend call
for edges. -/
theorem extract_edges_skips_below_two (response : List ExtractedEdge)
    (nodes : List EntityNode) (groupId : String) (now : Nat) (uuidGen : Nat → String)
    (h : nodes.length < 2) :
    numa_extract_edges response nodes groupId now = ([], 0) ∧
    inhouse_extract_edges response nodes groupId now uuidGen = ([], 0) := by
  constructor <;> simp [numa_extract_edges, inhouse_extract_edges, h]

/-- Witness for C6: one node is below the threshold. -/
theorem extract_edges_skips_below_two_witness :
    numa_extract_edges [cexSelfEdge] [cexNodeJohn] "g" 0 = ([], 0) :=
  (extract_edges_skips_below_two [cexSelfEdge] [cexNodeJohn] "g" 0 (fun _ => "e")
    (by decide)).1

lemma extractNodesStep_iter (eO : List PyMessage → List ExtractedEntity)
    (rO : List String → List String) (ctx : ExtractContext) (st : NodesLoopState) :
    (extractNodesStep eO rO ctx st).reflexion_iterations = st.reflexion_iterations + 1 := by
  unfold extractNodesStep
  cases ctx.source <;> dsimp only <;> split <;> rfl

lemma extractNodesStep_prompts (eO : List PyMessage → List ExtractedEntity)
    (rO : List String → List String) (ctx : ExtractContext) (st : NodesLoopState) :
    (extractNodesStep eO rO ctx st).extract_prompts.length ≤
      st.extract_prompts.length + 1 := by
  unfold extractNodesStep
  cases ctx.source <;> dsimp only <;> split <;> simp

lemma extractNodesLoop_fuel_stable (eO : List PyMessage → List ExtractedEntity)
    (rO : List String → List String) (ctx : ExtractContext) :
    ∀ (fuel : Nat) (st : NodesLoopState),
      MAX_REFLEXION_ITERATIONS + 2 ≤ st.reflexion_iterations + fuel →
      extractNodesLoop eO rO ctx (fuel + 1) st = extractNodesLoop eO rO ctx fuel st := by
  intro fuel
  induction fuel with
  | zero =>
    intro st h
    have hng : ¬ (st.entities_missed ∧ st.reflexion_iterations ≤ MAX_REFLEXION_ITERATIONS) := by
      rintro ⟨-, h2⟩
      simp only [MAX_REFLEXION_ITERATIONS] at h h2
      omega
    simp [extractNodesLoop, hng]
  | succ f ih =>
    intro st h
    by_cases hg : st.entities_missed ∧ st.reflexion_iterations ≤ MAX_REFLEXION_ITERATIONS
    · have h1 : extractNodesLoop eO rO ctx (f + 1 + 1) st =
          extractNodesLoop eO rO ctx (f + 1) (extractNodesStep eO rO ctx st) := by
        rw [extractNodesLoop, if_pos hg]
      have h2 : extractNodesLoop eO rO ctx (f + 1) st =
          extractNodesLoop eO rO ctx f (extractNodesStep eO rO ctx st) := by
        rw [extractNodesLoop, if_pos hg]
      rw [h1, h2]
      exact ih _ (by rw [extractNodesStep_iter]; omega)
    · rw [extractNodesLoop, if_neg hg, extractNodesLoop, if_neg hg]

lemma extractNodesLoop_prompts_le (eO : List PyMessage → List ExtractedEntity)
    (rO : List String → List String) (ctx : ExtractContext) :
    ∀ (fuel : Nat) (st : NodesLoopState),
      (extractNodesLoop eO rO ctx fuel st).extract_prompts.length ≤
        st.extract_prompts.length +
          (MAX_REFLEXION_ITERATIONS + 1 - st.reflexion_iterations) := by
  intro fuel
  induction fuel with
  | zero => intro st; simp [extractNodesLoop]
  | succ f ih =>
    intro st
    by_cases hg : st.entities_missed ∧ st.reflexion_iterations ≤ MAX_REFLEXION_ITERATIONS
    · rw [extractNodesLoop, if_pos hg]
      have h1 := ih (extractNodesStep eO rO ctx st)
      have h2 := extractNodesStep_prompts eO rO ctx st
      have h3 := extractNodesStep_iter eO rO ctx st
      have hr : st.reflexion_iterations ≤ MAX_REFLEXION_ITERATIONS := hg.2
      simp only [MAX_REFLEXION_ITERATIONS] at h1 h3 hr ⊢
      omega
    · rw [extractNodesLoop, if_neg hg]
      omega

/-- Counterexample for C1: when every reflexion call reports a missed
entity, the loop performs 4 extract passes — one more than
`MAX_REFLEXION_ITERATIONS = 3` — because the guard is
`reflexion_iterations <= MAX_REFLEXION_ITERATIONS` and the counter is
incremented after the extract call. -/
theorem reflexion_loop_four_cycles_cex :
    (extract_nodes_loop (fun _ => []) (fun _ => ["Missed Entity"]) "c" [] "E"
        EpisodeSource.text).extract_prompts.length = 4 ∧
    ¬ ((extract_nodes_loop (fun _ => []) (fun _ => ["Missed Entity"]) "c" [] "E"
        EpisodeSource.text).extract_prompts.length ≤ MAX_REFLEXION_ITERATIONS) := by
  constructor
  · rfl
  · intro h
    rw [show (extract_nodes_loop (fun _ => []) (fun _ => ["Missed Entity"]) "c" [] "E"
        EpisodeSource.text).extract_prompts.length = 4 from rfl] at h
    simp [MAX_REFLEXION_ITERATIONS] at h

/-- C1 (amended): for every backend behaviour, the reflexion loop performs
at most `MAX_REFLEXION_ITERATIONS + 1 = 4` extract/reflect cycles for a
single episode, even when every reflexion call returns a non-empty
missed-entities list. -/
theorem reflexion_loop_bounded (eO : List PyMessage → List ExtractedEntity)
    (rO : List String → List String) (content : String) (previous : List String)
    (et : String) (src : EpisodeSource) :
    (extract_nodes_loop eO rO content previous et src).extract_prompts.length ≤
      MAX_REFLEXION_ITERATIONS + 1 := by
  have h := extractNodesLoop_prompts_le eO rO (mkExtractContext content previous et src)
    (MAX_REFLEXION_ITERATIONS + 2) initNodesState
  simpa [initNodesState, extract_nodes_loop] using h

/-- C3 (code bug): with a reflexion call returning the missed entity
`"Missed Entity"`, all four extract prompts are rendered from the `context`
dict snapshot whose `custom_prompt` is the empty string — the appended
instruction never reaches any prompt, although the loop-local
`custom_prompt` variable does receive it, and the rendering *would* differ
had it been folded in. -/
theorem reflexion_prompt_never_folded :
    (extract_nodes_loop (fun _ => []) (fun _ => ["Missed Entity"]) "c" [] "E"
        EpisodeSource.text).extract_prompts =
      List.replicate 4 [⟨"system", extractTextSystem⟩,
        ⟨"user", extractTextUserContent (mkExtractContext "c" [] "E" EpisodeSource.text)⟩] ∧
    (extract_nodes_loop (fun _ => []) (fun _ => ["Missed Entity"]) "c" [] "E"
        EpisodeSource.text).custom_prompt =
      "Make sure that the following entities are extracted: \nMissed Entity," ∧
    extractTextUserContent (mkExtractContext "c" [] "E" EpisodeSource.text) ≠
      extractTextUserContent
        { mkExtractContext "c" [] "E" EpisodeSource.text with
          custom_prompt := "Make sure that the following entities are extracted: \nMissed Entity," } := by
  refine ⟨rfl, rfl, by decide⟩

lemma pyLower_of_not_upper {c : Nat} (h : isUpperAZ c = false) : pyLower c = c := by
  simp [pyLower, h]

lemma pyLower_of_lower {c : Nat} (h : isLowerAZ c = true) : pyLower c = c := by
  apply pyLower_of_not_upper
  simp only [isLowerAZ, Bool.and_eq_true, decide_eq_true_eq] at h
  simp only [isUpperAZ, Bool.and_eq_true, decide_eq_true_eq, Bool.and_eq_false_imp,
    decide_eq_false_iff_not]
  omega

lemma pyLower_of_space {c : Nat} (h : isSpaceRe c = true) : pyLower c = c := by
  apply pyLower_of_not_upper
  simp only [isSpaceRe, Bool.or_eq_true, beq_iff_eq] at h
  simp only [isUpperAZ, Bool.and_eq_false_imp, decide_eq_false_iff_not, decide_eq_true_eq]
  omega

lemma isLowerAZ_pyLower_of_upper {c : Nat} (h : isUpperAZ c = true) :
    isLowerAZ (pyLower c) = true := by
  rw [pyLower, if_pos h]
  simp only [isUpperAZ, Bool.and_eq_true, decide_eq_true_eq] at h
  simp only [isLowerAZ, Bool.and_eq_true, decide_eq_true_eq]
  omega

lemma not_space_of_upper {c : Nat} (h : isUpperAZ c = true) : isSpaceRe c = false := by
  simp only [isUpperAZ, Bool.and_eq_true, decide_eq_true_eq] at h
  simp only [isSpaceRe, Bool.or_eq_false_iff, beq_eq_false_iff_ne]
  omega

lemma not_space_of_lower {c : Nat} (h : isLowerAZ c = true) : isSpaceRe c = false := by
  simp only [isLowerAZ, Bool.and_eq_true, decide_eq_true_eq] at h
  simp only [isSpaceRe, Bool.or_eq_false_iff, beq_eq_false_iff_ne]
  omega

lemma pyLower_upper_inj {a b : Nat} (ha : isUpperAZ a = true) (hb : isUpperAZ b = true)
    (h : pyLower a = pyLower b) : a = b := by
  simp only [isUpperAZ, Bool.and_eq_true, decide_eq_true_eq] at ha hb
  simp only [pyLower, isUpperAZ] at h
  rw [if_pos (by simp only [Bool.and_eq_true, decide_eq_true_eq]; omega),
      if_pos (by simp only [Bool.and_eq_true, decide_eq_true_eq]; omega)] at h
  omega

lemma map_pyLower_of_lower {ls : List Nat} (h : ∀ c ∈ ls, isLowerAZ c = true) :
    ls.map pyLower = ls := by
  induction ls with
  | nil => rfl
  | cons a l ih =>
    rw [List.map_cons, pyLower_of_lower (h a (by simp)),
      ih (fun c hc => h c (by simp [hc]))]

lemma map_pyLower_of_space {ws : List Nat} (h : ∀ c ∈ ws, isSpaceRe c = true) :
    ws.map pyLower = ws := by
  induction ws with
  | nil => rfl
  | cons a l ih =>
    rw [List.map_cons, pyLower_of_space (h a (by simp)),
      ih (fun c hc => h c (by simp [hc]))]

lemma takeWhile_append_all {p : Nat → Bool} {l₁ l₂ : List Nat} (h : ∀ c ∈ l₁, p c = true) :
    (l₁ ++ l₂).takeWhile p = l₁ ++ l₂.takeWhile p := by
  induction l₁ with
  | nil => simp
  | cons a l ih =>
    rw [List.cons_append, List.takeWhile_cons, if_pos (h a (by simp)), List.cons_append,
      ih (fun c hc => h c (by simp [hc]))]

lemma dropWhile_append_all {p : Nat → Bool} {l₁ l₂ : List Nat} (h : ∀ c ∈ l₁, p c = true) :
    (l₁ ++ l₂).dropWhile p = l₂.dropWhile p := by
  induction l₁ with
  | nil => simp
  | cons a l ih =>
    rw [List.cons_append, List.dropWhile_cons, if_pos (h a (by simp)),
      ih (fun c hc => h c (by simp [hc]))]

lemma wordInj {w₁ w₂ : List Nat} (h₁ : WordOK w₁) (h₂ : WordOK w₂)
    (h : w₁.map pyLower = w₂.map pyLower) : w₁ = w₂ := by
  obtain ⟨u₁, ls₁, rfl, hu₁, -, hls₁⟩ := h₁
  obtain ⟨u₂, ls₂, rfl, hu₂, -, hls₂⟩ := h₂
  rw [List.map_cons, List.map_cons, map_pyLower_of_lower hls₁, map_pyLower_of_lower hls₂] at h
  obtain ⟨hu, hls⟩ := List.cons.injEq .. ▸ h
  exact List.cons.injEq .. ▸ ⟨pyLower_upper_inj hu₁ hu₂ hu, hls⟩

lemma word_map_all_not_space {w : List Nat} (hw : WordOK w) :
    ∀ c ∈ w.map pyLower, (!isSpaceRe c) = true := by
  obtain ⟨u, ls, rfl, hu, -, hls⟩ := hw
  intro c hc
  rcases List.mem_map.mp hc with ⟨a, ha, rfl⟩
  rcases List.mem_cons.mp ha with rfl | ha
  · simp [not_space_of_lower (isLowerAZ_pyLower_of_upper hu)]
  · rw [pyLower_of_lower (hls a ha)]
    simp [not_space_of_lower (hls a ha)]

lemma renderSplit {w₁ w₂ j₁ j₂ : List Nat} (hw₁ : WordOK w₁) (hw₂ : WordOK w₂)
    (hj₁ : j₁ = [] ∨ ∃ c t, j₁ = c :: t ∧ isSpaceRe c = true)
    (hj₂ : j₂ = [] ∨ ∃ c t, j₂ = c :: t ∧ isSpaceRe c = true)
    (hmap : (w₁ ++ j₁).map pyLower = (w₂ ++ j₂).map pyLower) :
    w₁ = w₂ ∧ j₁.map pyLower = j₂.map pyLower := by
  have keytw : ∀ (w j : List Nat), WordOK w →
      (j = [] ∨ ∃ c t, j = c :: t ∧ isSpaceRe c = true) →
      ((w ++ j).map pyLower).takeWhile (fun c => !isSpaceRe c) = w.map pyLower ∧
      ((w ++ j).map pyLower).dropWhile (fun c => !isSpaceRe c) = j.map pyLower := by
    intro w j hw hj
    rw [List.map_append, takeWhile_append_all (word_map_all_not_space hw),
      dropWhile_append_all (word_map_all_not_space hw)]
    rcases hj with rfl | ⟨c, t, rfl, hc⟩
    · simp
    · rw [List.map_cons, List.takeWhile_cons, List.dropWhile_cons, pyLower_of_space hc]
      rw [if_neg (by simp [hc]), if_neg (by simp [hc])]
      simp
  have h1 := keytw w₁ j₁ hw₁ hj₁
  have h2 := keytw w₂ j₂ hw₂ hj₂
  constructor
  · exact wordInj hw₁ hw₂ (by rw [← h1.1, ← h2.1, hmap])
  · rw [← h1.2, ← h2.2, hmap]

lemma segSplit {ws₁ ws₂ r₁ r₂ : List Nat}
    (hne₁ : ws₁ ≠ []) (hsp₁ : ∀ c ∈ ws₁, isSpaceRe c = true)
    (hne₂ : ws₂ ≠ []) (hsp₂ : ∀ c ∈ ws₂, isSpaceRe c = true)
    (hw₁ : WordOK r₁ ∨ ∃ (w rest : List Nat), r₁ = w ++ rest ∧ WordOK w)
    (hw₂ : WordOK r₂ ∨ ∃ (w rest : List Nat), r₂ = w ++ rest ∧ WordOK w)
    (hmap : (ws₁ ++ r₁).map pyLower = (ws₂ ++ r₂).map pyLower) :
    ws₁ = ws₂ ∧ r₁.map pyLower = r₂.map pyLower := by
  have keytw : ∀ (ws r : List Nat), (∀ c ∈ ws, isSpaceRe c = true) →
      (WordOK r ∨ ∃ (w rest : List Nat), r = w ++ rest ∧ WordOK w) →
      ((ws ++ r).map pyLower).takeWhile isSpaceRe = ws ∧
      ((ws ++ r).map pyLower).dropWhile isSpaceRe = r.map pyLower := by
    intro ws r hsp hr
    have hws : ws.map pyLower = ws := map_pyLower_of_space hsp
    have hhead : ∀ (w rest : List Nat), WordOK w →
        ((w ++ rest).map pyLower).takeWhile isSpaceRe = [] ∧
        ((w ++ rest).map pyLower).dropWhile isSpaceRe = (w ++ rest).map pyLower := by
      intro w rest hw
      obtain ⟨u, ls, rfl, hu, -, -⟩ := hw
      rw [List.cons_append, List.map_cons, List.takeWhile_cons, List.dropWhile_cons]
      rw [if_neg (by simp [not_space_of_lower (isLowerAZ_pyLower_of_upper hu)]),
        if_neg (by simp [not_space_of_lower (isLowerAZ_pyLower_of_upper hu)])]
      exact ⟨rfl, rfl⟩
    have hr' : (r.map pyLower).takeWhile isSpaceRe = [] ∧
        (r.map pyLower).dropWhile isSpaceRe = r.map pyLower := by
      rcases hr with hw | ⟨w, rest, rfl, hw⟩
      · simpa using hhead r [] hw
      · exact hhead w rest hw
    rw [List.map_append, hws, takeWhile_append_all (p := isSpaceRe) hsp,
      dropWhile_append_all (p := isSpaceRe) hsp, hr'.1, hr'.2]
    simp
  have h1 := keytw ws₁ r₁ hsp₁ hw₁
  have h2 := keytw ws₂ r₂ hsp₂ hw₂
  refine ⟨?_, by rw [← h1.2, ← h2.2, hmap]⟩
  rw [← h1.1, ← h2.1, hmap]

lemma flatten_head_space {segs : List (List Nat)} (h : ∀ s ∈ segs, SegOK s) :
    segs.flatten = [] ∨ ∃ c t, segs.flatten = c :: t ∧ isSpaceRe c = true := by
  cases segs with
  | nil => exact Or.inl rfl
  | cons s ss =>
    obtain ⟨ws, w, rfl, hne, hsp, -⟩ := h s (by simp)
    cases ws with
    | nil => exact absurd rfl hne
    | cons c t =>
      right
      exact ⟨c, t ++ w ++ ss.flatten, by simp, hsp c (by simp)⟩

/-- Two texts of the proper-noun match shape that agree after `str.lower()`
are equal: within the shape, upper-case letters occur exactly at word
starts, so lowering is injective. -/
lemma renderInj : ∀ (segs₁ : List (List Nat)) (w₁ w₂ : List Nat) (segs₂ : List (List Nat)),
    WordOK w₁ → WordOK w₂ → (∀ s ∈ segs₁, SegOK s) → (∀ s ∈ segs₂, SegOK s) →
    (w₁ ++ segs₁.flatten).map pyLower = (w₂ ++ segs₂.flatten).map pyLower →
    w₁ ++ segs₁.flatten = w₂ ++ segs₂.flatten := by
  intro segs₁
  induction segs₁ with
  | nil =>
    intro w₁ w₂ segs₂ hw₁ hw₂ _ hsegs₂ hmap
    obtain ⟨hw, hj⟩ := renderSplit hw₁ hw₂ (Or.inl rfl) (flatten_head_space hsegs₂) hmap
    have hj2 : segs₂.flatten = [] := by
      have := hj.symm
      simpa [List.map_eq_nil_iff] using this
    rw [hw, hj2]
    rfl
  | cons s₁ ss₁ ih =>
    intro w₁ w₂ segs₂ hw₁ hw₂ hsegs₁ hsegs₂ hmap
    obtain ⟨hw, hj⟩ := renderSplit hw₁ hw₂
      (flatten_head_space hsegs₁) (flatten_head_space hsegs₂) hmap
    cases segs₂ with
    | nil =>
      exfalso
      obtain ⟨ws, w, hs, hne, -, -⟩ := hsegs₁ s₁ (by simp)
      have : (s₁ :: ss₁).flatten.map pyLower = [] := by simpa using hj
      rw [List.map_eq_nil_iff] at this
      have hlen := congrArg List.length this
      simp only [List.flatten_cons, List.length_append, List.length_nil, hs] at hlen
      cases ws with
      | nil => exact hne rfl
      | cons a b => simp at hlen
    | cons s₂ ss₂ =>
      obtain ⟨ws₁, wd₁, hs₁, hne₁, hsp₁, hwd₁⟩ := hsegs₁ s₁ (by simp)
      obtain ⟨ws₂, wd₂, hs₂, hne₂, hsp₂, hwd₂⟩ := hsegs₂ s₂ (by simp)
      have hj' : (ws₁ ++ (wd₁ ++ ss₁.flatten)).map pyLower =
          (ws₂ ++ (wd₂ ++ ss₂.flatten)).map pyLower := by
        simpa [List.flatten_cons, hs₁, hs₂, List.append_assoc] using hj
      obtain ⟨hws, hrest⟩ := segSplit hne₁ hsp₁ hne₂ hsp₂
        (Or.inr ⟨wd₁, ss₁.flatten, rfl, hwd₁⟩) (Or.inr ⟨wd₂, ss₂.flatten, rfl, hwd₂⟩) hj'
      have htail : wd₁ ++ ss₁.flatten = wd₂ ++ ss₂.flatten :=
        ih wd₁ wd₂ ss₂ hwd₁ hwd₂ (fun s hs => hsegs₁ s (by simp [hs]))
          (fun s hs => hsegs₂ s (by simp [hs])) hrest
      rw [hw]
      simp only [List.flatten_cons, hs₁, hs₂, List.append_assoc, hws, htail]

/-- Case-insensitive distinctness upgrades to distinctness on shaped
matches. -/
lemma properShapeLowerInj {m₁ m₂ : List Nat} (h₁ : ProperShape m₁) (h₂ : ProperShape m₂)
    (h : m₁.map pyLower = m₂.map pyLower) : m₁ = m₂ := by
  obtain ⟨w₁, segs₁, rfl, hw₁, hsegs₁⟩ := h₁
  obtain ⟨w₂, segs₂, rfl, hw₂, hsegs₂⟩ := h₂
  exact renderInj segs₁ w₁ w₂ segs₂ hw₁ hw₂ hsegs₁ hsegs₂ h

lemma matchSegs_spec (cs : List Nat) :
    (∀ s ∈ (matchSegs cs).1, SegOK s) ∧
    (matchSegs cs).1.flatten ++ (matchSegs cs).2 = cs := by
  suffices H : ∀ (n : Nat) (cs : List Nat), cs.length ≤ n →
      (∀ s ∈ (matchSegs cs).1, SegOK s) ∧
      (matchSegs cs).1.flatten ++ (matchSegs cs).2 = cs from H cs.length cs le_rfl
  intro n
  induction n with
  | zero =>
    intro cs hle
    have hnil : cs = [] := List.length_eq_zero.mp (Nat.le_zero.mp hle)
    subst hnil
    rw [matchSegs]
    simp
  | succ n ih =>
    intro cs hle
    rw [matchSegs]
    by_cases hws : cs.takeWhile isSpaceRe = []
    · rw [if_pos hws]
      simp
    rw [if_neg hws]
    rcases hdw : cs.dropWhile isSpaceRe with _ | ⟨u, r2⟩
    · simp
    simp only
    by_cases hu : isUpperAZ u = true
    swap
    · simp [hu]
    rw [if_pos hu]
    by_cases hls : r2.takeWhile isLowerAZ = []
    · rw [if_pos hls]
      simp
    rw [if_neg hls]
    have hlen : (r2.dropWhile isLowerAZ).length ≤ n := by
      have e1 : (cs.takeWhile isSpaceRe).length + (cs.dropWhile isSpaceRe).length
          = cs.length := by
        rw [← List.length_append, List.takeWhile_append_dropWhile]
      have e2 : (r2.takeWhile isLowerAZ).length + (r2.dropWhile isLowerAZ).length
          = r2.length := by
        rw [← List.length_append, List.takeWhile_append_dropWhile]
      have e3 : (cs.takeWhile isSpaceRe).length ≠ 0 := by
        simpa [List.length_eq_zero] using hws
      have e4 : (cs.dropWhile isSpaceRe).length = r2.length + 1 := by rw [hdw]; rfl
      omega
    obtain ⟨ihs, ihj⟩ := ih (r2.dropWhile isLowerAZ) hlen
    constructor
    · intro s hs
      rcases List.mem_cons.mp hs with rfl | hs
      · refine ⟨cs.takeWhile isSpaceRe, u :: r2.takeWhile isLowerAZ, rfl, hws,
          fun c hc => List.mem_takeWhile_imp hc, u, r2.takeWhile isLowerAZ, rfl, hu, hls,
          fun c hc => List.mem_takeWhile_imp hc⟩
      · exact ihs s hs
    · have e5 : cs.takeWhile isSpaceRe ++ (u :: r2) = cs := by
        rw [← hdw, List.takeWhile_append_dropWhile]
      have e6 : r2.takeWhile isLowerAZ ++ r2.dropWhile isLowerAZ = r2 :=
        List.takeWhile_append_dropWhile ..
      simp only [List.flatten_cons, List.append_assoc, List.cons_append, ihj]
      conv_rhs => rw [← e5]
      rw [← e6]
      simp [List.append_assoc]

lemma matchProperAt_spec : ∀ {cs m rem : List Nat},
    matchProperAt cs = some (m, rem) → ProperShape m ∧ rem.length < cs.length := by
  intro cs m rem h
  cases cs with
  | nil => simp [matchProperAt] at h
  | cons u r =>
    rw [matchProperAt] at h
    by_cases hu : isUpperAZ u = true
    swap
    · rw [if_neg (by simp [hu])] at h
      cases h
    rw [if_pos hu] at h
    by_cases hls : r.takeWhile isLowerAZ = []
    · rw [if_pos hls] at h
      cases h
    rw [if_neg hls] at h
    simp only at h
    obtain ⟨hsegs, hjoin⟩ := matchSegs_spec (r.dropWhile isLowerAZ)
    have hwd : WordOK (u :: r.takeWhile isLowerAZ) :=
      ⟨u, r.takeWhile isLowerAZ, rfl, hu, hls, fun c hc => List.mem_takeWhile_imp hc⟩
    have hr2 : (r.dropWhile isLowerAZ).length ≤ r.length := by
      have e : (r.takeWhile isLowerAZ).length + (r.dropWhile isLowerAZ).length
          = r.length := by
        rw [← List.length_append, List.takeWhile_append_dropWhile]
      omega
    have hflat : ((matchSegs (r.dropWhile isLowerAZ)).1.flatten).length +
        ((matchSegs (r.dropWhile isLowerAZ)).2).length = (r.dropWhile isLowerAZ).length := by
      rw [← List.length_append, hjoin]
    rcases hbs : (matchSegs (r.dropWhile isLowerAZ)).2 with _ | ⟨c, t⟩
    all_goals rw [hbs] at h
    · -- boundary holds at end of input
      rw [show boundaryOK ([] : List Nat) = true from rfl, if_pos rfl] at h
      simp only [Option.some.injEq, Prod.mk.injEq] at h
      obtain ⟨hm, hrem⟩ := h
      subst hm
      subst hrem
      refine ⟨⟨u :: r.takeWhile isLowerAZ, (matchSegs (r.dropWhile isLowerAZ)).1, by
        simp, hwd, hsegs⟩, ?_⟩
      rw [hbs] at hflat
      simp only [List.length_cons, List.length_nil]
      omega
    · rw [show boundaryOK (c :: t) = !isWordChar c from rfl] at h
      by_cases hwc : isWordChar c = true
      · -- boundary fails: drop the last group
        rw [hwc] at h
        rw [if_neg (by simp)] at h
        rcases hsg : (matchSegs (r.dropWhile isLowerAZ)).1 with _ | ⟨s, ss⟩
        all_goals rw [hsg] at h
        · rw [show dropLastSeg u (r.takeWhile isLowerAZ) [] (c :: t) = none from rfl] at h
          cases h
        · rw [dropLastSeg] at h
          simp only [Option.some.injEq, Prod.mk.injEq] at h
          obtain ⟨hm, hrem⟩ := h
          subst hm
          subst hrem
          have hlast : (s :: ss).dropLast ++ [(s :: ss).getLast (List.cons_ne_nil s ss)]
              = s :: ss := List.dropLast_append_getLast (List.cons_ne_nil s ss)
          have hflat2 : (s :: ss).dropLast.flatten ++
              (s :: ss).getLast (List.cons_ne_nil s ss) = (s :: ss).flatten := by
            conv_rhs => rw [← hlast]
            rw [List.flatten_append]
            simp
          constructor
          · refine ⟨u :: r.takeWhile isLowerAZ, (s :: ss).dropLast, by simp, hwd, ?_⟩
            intro x hx
            exact hsegs x (by
              rw [hsg]
              exact (List.dropLast_sublist (s :: ss)).subset hx)
          · rw [hsg, hbs] at hflat
            have hlen2 := congrArg List.length hflat2
            simp only [List.length_append, List.length_cons] at hlen2 hflat ⊢
            omega
      · -- next character is not a word character: boundary holds
        rw [Bool.not_eq_true] at hwc
        rw [hwc] at h
        rw [Bool.not_false] at h
        rw [if_pos rfl] at h
        simp only [Option.some.injEq, Prod.mk.injEq] at h
        obtain ⟨hm, hrem⟩ := h
        subst hm
        subst hrem
        refine ⟨⟨u :: r.takeWhile isLowerAZ, (matchSegs (r.dropWhile isLowerAZ)).1, by
          simp, hwd, hsegs⟩, ?_⟩
        rw [hbs] at hflat
        simp only [List.length_cons] at hflat ⊢
        omega

lemma findProperGo_shapes : ∀ (fuel : Nat) (prev : Bool) (cs : List Nat),
    ∀ m ∈ findProperGo fuel prev cs, ProperShape m := by
  intro fuel
  induction fuel with
  | zero =>
    intro prev cs m hm
    simp [findProperGo] at hm
  | succ f ih =>
    intro prev cs m hm
    cases cs with
    | nil => simp [findProperGo] at hm
    | cons c rest =>
      rw [findProperGo] at hm
      by_cases hb : (!prev && isUpperAZ c) = true
      · rw [if_pos hb] at hm
        rcases hmp : matchProperAt (c :: rest) with _ | ⟨m0, rem⟩
        · simp only [hmp] at hm
          exact ih _ _ m hm
        · simp only [hmp] at hm
          rcases List.mem_cons.mp hm with rfl | hm
          · exact (matchProperAt_spec hmp).1
          · exact ih _ _ m hm
      · rw [if_neg hb] at hm
        exact ih _ _ m hm

lemma findProperGo_fuel_stable : ∀ (fuel : Nat) (prev : Bool) (cs : List Nat),
    cs.length < fuel →
    findProperGo (fuel + 1) prev cs = findProperGo fuel prev cs := by
  intro fuel
  induction fuel with
  | zero =>
    intro prev cs h
    exact absurd h (Nat.not_lt_zero _)
  | succ f ih =>
    intro prev cs h
    cases cs with
    | nil => rfl
    | cons c rest =>
      have hrest : rest.length < f := by
        simp only [List.length_cons] at h
        omega
      rw [findProperGo, findProperGo]
      by_cases hb : (!prev && isUpperAZ c) = true
      · rw [if_pos hb, if_pos hb]
        rcases hmp : matchProperAt (c :: rest) with _ | ⟨m0, rem⟩
        · simp only [hmp]
          exact ih _ rest hrest
        · simp only [hmp]
          have hrem := (matchProperAt_spec hmp).2
          rw [ih true rem (by simp only [List.length_cons] at hrem; omega)]
      · rw [if_neg hb, if_neg hb]
        exact ih _ rest hrest

lemma firstDedupGo_spec : ∀ (l seen : List (List Nat)),
    (firstDedupGo seen l).Pairwise (· ≠ ·) ∧
    (∀ x ∈ firstDedupGo seen l, x ∉ seen) ∧
    (∀ x ∈ firstDedupGo seen l, x ∈ l) := by
  intro l
  induction l with
  | nil =>
    intro seen
    simp [firstDedupGo]
  | cons a l ih =>
    intro seen
    rw [firstDedupGo]
    by_cases ha : a ∈ seen
    · rw [if_pos ha]
      obtain ⟨p, hnotin, hsub⟩ := ih seen
      exact ⟨p, hnotin, fun x hx => List.mem_cons_of_mem a (hsub x hx)⟩
    · rw [if_neg ha]
      obtain ⟨p, hnotin, hsub⟩ := ih (a :: seen)
      refine ⟨List.Pairwise.cons ?_ p, ?_, ?_⟩
      · intro y hy hay
        exact (hnotin y hy) (by simp [hay.symm])
      · intro x hx
        rcases List.mem_cons.mp hx with rfl | hx
        · exact ha
        · exact fun hxseen => hnotin x hx (List.mem_cons_of_mem a hxseen)
      · intro x hx
        rcases List.mem_cons.mp hx with rfl | hx
        · exact List.mem_cons_self _ _
        · exact List.mem_cons_of_mem a (hsub x hx)

lemma extract_from_prompt_mem_shapes {t m : List Nat}
    (hm : m ∈ extract_from_prompt_entities t) : ProperShape m := by
  unfold extract_from_prompt_entities at hm
  have h1 := (List.take_sublist 10 _).subset hm
  have h2 := (firstDedupGo_spec _ []).2.2 m h1
  have h3 := List.mem_of_mem_filter h2
  exact findProperGo_shapes _ _ _ m h3

lemma inhouseEntitiesGo_spec (classify : List Nat → Int) (summarize : List Nat → List Nat) :
    ∀ (raw seen : List (List Nat)),
      ((inhouseEntitiesGo classify summarize seen raw).map (·.name)).Pairwise
        (fun a b => a.map pyLower ≠ b.map pyLower) ∧
      ∀ e ∈ inhouseEntitiesGo classify summarize seen raw,
        e.name.map pyLower ∉ seen := by
  intro raw
  induction raw with
  | nil =>
    intro seen
    simp [inhouseEntitiesGo]
  | cons r rest ih =>
    intro seen
    simp only [inhouseEntitiesGo]
    by_cases hc : 2 < (pyTitle (collapseWs (pyStrip r))).length ∧
        (pyTitle (collapseWs (pyStrip r))).map pyLower ∉ seen
    · rw [if_pos hc]
      obtain ⟨p, hnotin⟩ := ih ((pyTitle (collapseWs (pyStrip r))).map pyLower :: seen)
      constructor
      · rw [List.map_cons]
        refine List.Pairwise.cons ?_ p
        intro y hy
        rcases List.mem_map.mp hy with ⟨e, he, rfl⟩
        have := hnotin e he
        simp only [List.mem_cons] at this
        exact fun hEq => this (Or.inl hEq.symm)
      · intro e he
        rcases List.mem_cons.mp he with rfl | he
        · exact hc.2
        · exact fun hs => hnotin e he (List.mem_cons_of_mem _ hs)
    · rw [if_neg hc]
      obtain ⟨p, hnotin⟩ := ih seen
      exact ⟨p, hnotin⟩

/-- C8: for every input, the local rule-based extractor's entity list
contains no two names equal up to letter case, and its length is bounded by
the caller's cap — 10 in `LocalExtractor._extract_from_prompt` (exact
`dict.fromkeys` dedup, but every match of the proper-noun pattern is
case-normalized by shape, so exact distinctness implies case-insensitive
distinctness), and 20 in `InHouseLLMClient._extract_entities`
(dedup by lowered name in `seen_entities`). -/
theorem local_extractor_dedup_and_cap :
    (∀ input_text : List Nat,
      (extract_from_prompt_entities input_text).length ≤ 10 ∧
      (extract_from_prompt_entities input_text).Pairwise
        (fun a b => a.map pyLower ≠ b.map pyLower)) ∧
    (∀ (raw : List (List Nat)) (classify : List Nat → Int)
        (summarize : List Nat → List Nat),
      (inhouse_extract_entities raw classify summarize).length ≤ 20 ∧
      ((inhouse_extract_entities raw classify summarize).map (·.name)).Pairwise
        (fun a b => a.map pyLower ≠ b.map pyLower)) := by
  constructor
  · intro t
    constructor
    · exact List.length_take_le ..
    · have hp : (extract_from_prompt_entities t).Pairwise (· ≠ ·) := by
        unfold extract_from_prompt_entities
        exact ((firstDedupGo_spec _ []).1).sublist (List.take_sublist 10 _)
      refine hp.imp_of_mem ?_
      intro a b ha hb hne hmapEq
      exact hne (properShapeLowerInj (extract_from_prompt_mem_shapes ha)
        (extract_from_prompt_mem_shapes hb) hmapEq)
  · intro raw classify summarize
    constructor
    · exact List.length_take_le ..
    · have h := (inhouseEntitiesGo_spec classify summarize raw []).1
      unfold inhouse_extract_entities
      exact h.sublist ((List.take_sublist 20 _).map _)

/-- C7 (code bug): the fallback embedding seeds numpy with Python's
per-process salted `hash`, so two independent interpreter runs (salts
`hashRunA` vs `hashRunB`) embed the same text into *different* vectors —
the claimed cross-run bit-identity fails; the vector length is 384 as
claimed, and determinism holds only within a single process (fixed salt),
where the function of text is mathematically fixed. -/
theorem mock_embedding_salt_dependent :
    mockSeed hashRunA "hello" ≠ mockSeed hashRunB "hello" ∧
    mockEmbedding hashRunA randnModel "hello" ≠ mockEmbedding hashRunB randnModel "hello" ∧
    (mockEmbedding hashRunA randnModel "hello").length = EMBEDDING_DIMENSION := by
  have hseedA : mockSeed hashRunA "hello" = 0 := rfl
  have hseedB : mockSeed hashRunB "hello" = 1 := rfl
  have hrA : randnModel 0 = (1 : ℝ) :: 0 :: List.replicate 382 0 := by
    rw [randnModel, if_pos rfl]
  have hrB : randnModel 1 = (0 : ℝ) :: 1 :: List.replicate 382 0 := by
    rw [randnModel, if_neg (by omega)]
  have hsum : (((1 : ℝ) :: (0 : ℝ) :: List.replicate 382 (0 : ℝ)).map
      (fun x => x ^ 2)).sum = 1 := by
    norm_num [List.map_replicate, List.sum_replicate]
  have hA : mockEmbedding hashRunA randnModel "hello" =
      ((1 : ℝ) :: 0 :: List.replicate 382 0).map (fun x => x / 1) := by
    simp only [mockEmbedding, hseedA, hrA, hsum, Real.sqrt_one]
  have hAhead : (mockEmbedding hashRunA randnModel "hello").head? = some 1 := by
    rw [hA]
    simp only [List.map_cons, List.head?_cons, div_one]
  have hBhead : (mockEmbedding hashRunB randnModel "hello").head? = some 0 := by
    simp only [mockEmbedding, hseedB, hrB, List.map_cons, List.head?_cons, zero_div]
  refine ⟨by decide, ?_, ?_⟩
  · intro hEq
    rw [hEq, hBhead] at hAhead
    simp only [Option.some.injEq] at hAhead
    exact one_ne_zero hAhead.symm
  · rw [hA]
    simp only [List.length_map, List.length_cons, List.length_replicate, EMBEDDING_DIMENSION]

end Eion
